import Mathlib

/-!
A verification development for the `folder_sync` repository (`src/config.py`,
`src/main.py`): a one-way periodic folder synchronizer.  The filesystem is
embedded as a tree of named entries; `synchronize_folders`, `delete_item` and
`calculate_file_hash` are shallow embeddings of the functions of the same
names in `src/main.py`, and the scheduler loop of `start_sync` is embedded as
`start_sync_loop`.  The Python recursion has no intrinsic termination measure
(its depth is the directory nesting on disk), so the embedded recursive
functions take an explicit fuel argument that decreases by one per directory
level; theorems assume enough fuel for the trees involved, which the
well-formedness predicates guarantee.
-/

namespace FolderSync

/-- `CHUNK_SIZE = 4096` from `src/config.py`. -/
def CHUNK_SIZE : Nat := 4096

/-- A filesystem node: a regular file (with a readability flag modelling
whether `open(path, 'rb')` / subsequent reads succeed, and its byte content),
or a directory with a list of named children (the `os.listdir` order). -/
inductive Node where
  | file (readable : Bool) (content : List Nat) : Node
  | dir (children : List (String × Node)) : Node

/-- Look up a child by name in a directory's child list (path resolution of
`os.path.join(dirpath, name)`). -/
def lookupName : List (String × Node) → String → Option Node
  | [], _ => none
  | (m, c) :: rest, n => if m = n then some c else lookupName rest n

/-- `os.path.exists(os.path.join(dirpath, name))`. -/
def hasName (l : List (String × Node)) (n : String) : Bool :=
  (lookupName l n).isSome

/-- Write a child into a directory's child list: overwrite the entry of that
name if present, otherwise add a new entry. -/
def setEntry : List (String × Node) → String → Node → List (String × Node)
  | [], n, v => [(n, v)]
  | (m, c) :: rest, n, v =>
      if m = n then (n, v) :: rest else (m, c) :: setEntry rest n v

/-- One `file_hash.update(chunk)` step of `calculate_file_hash`
(`src/main.py` lines 65-67).  The `hashlib.md5` digest accumulator is an
external library; it is modelled abstractly by the accumulated byte stream
itself, per the spec's fingerprint contract (two fingerprints are equal
exactly when the hashed contents are; collision risk is declared out of
scope by the spec). -/
def md5_update (acc chunk : List Nat) : List Nat := acc ++ chunk

/-- The `while chunk := file.read(CHUNK_SIZE)` loop of `calculate_file_hash`
(`src/main.py` lines 66-67): read the remaining bytes in `CHUNK_SIZE` blocks,
feeding each block to the digest accumulator.  The fuel argument only bounds
the number of loop iterations; `content.length + 1` is always enough. -/
def read_chunks : Nat → List Nat → List Nat → List Nat
  | 0, acc, _ => acc
  | _ + 1, acc, [] => acc
  | fuel + 1, acc, b :: rest =>
      read_chunks fuel (md5_update acc ((b :: rest).take CHUNK_SIZE))
        ((b :: rest).drop CHUNK_SIZE)

/-- `calculate_file_hash` (`src/main.py` lines 55-72).  The argument is what
the filepath resolves to on disk.  A missing path, a directory
(`IsADirectoryError`), or an unreadable file make `open` / `read` raise
`OSError`, which the function catches and logs, implicitly returning `None`;
a readable file yields the digest of its full byte content. -/
def calculate_file_hash : Option Node → Option (List Nat)
  | some (Node.file true content) => some (read_chunks (content.length + 1) [] content)
  | some (Node.file false _) => none
  | some (Node.dir _) => none
  | none => none

/-- `delete_item` (`src/main.py` lines 110-131): a file is removed with
`os.remove`; for a directory, every child is deleted recursively first and
then `os.rmdir` is attempted, which fails (logged, directory kept with its
remaining children) unless the directory is now empty.  `none` means the
item is gone; `some n` means something remained.  Fuel bounds the recursion
depth; with fuel at least the tree depth the fuel-0 case is never reached. -/
def delete_item : Nat → Node → Option Node
  | _, Node.file _ _ => none
  | 0, Node.dir cs => some (Node.dir cs)
  | fuel + 1, Node.dir cs =>
      let remaining := cs.filterMap (fun p =>
        (delete_item fuel p.2).map (fun c => (p.1, c)))
      match remaining with
      | [] => none
      | _ :: _ => some (Node.dir remaining)

/-- The outcome of one `synchronize_folders` call: the replica subtree it
leaves behind, its boolean return value, and counters for the log records it
emits: `copies` counts `Synchronizing file` writes (line 183), `skips`
counts `hash match ... No need to sync` records (lines 176-177), `errors`
counts `Failed to synchronize` records from caught per-item `OSError`s
(lines 185-192).  Counters include those of recursive calls. -/
structure SyncResult where
  replica : Option Node
  ok : Bool
  copies : Nat
  skips : Nat
  errors : Nat

/-- The state threaded through the forward pass over a source directory's
items: the replica directory's current child list plus the log counters. -/
structure FwdState where
  children : List (String × Node)
  copies : Nat
  skips : Nat
  errors : Nat

/-- The copy step of the forward pass (`src/main.py` lines 180-192):
`open(source_item_path, 'rb')` raises `OSError` if the source file is
unreadable; otherwise `open(replica_item_path, 'wb')` raises
`IsADirectoryError` if that path is an existing directory; otherwise the
replica file is (over)written with the source bytes.  A raised `OSError` is
caught, logged, and the loop continues with the next item. -/
def copy_file (readable : Bool) (content : List Nat) (name : String)
    (st : FwdState) : FwdState :=
  if readable then
    match lookupName st.children name with
    | some (Node.dir _) => ⟨st.children, st.copies, st.skips, st.errors + 1⟩
    | _ => ⟨setEntry st.children name (Node.file true content),
            st.copies + 1, st.skips, st.errors⟩
  else ⟨st.children, st.copies, st.skips, st.errors + 1⟩

/-- One iteration of the forward pass (`src/main.py` lines 163-192) for the
source item `name ↦ child`.  A source directory triggers the recursive
`synchronize_folders` call (`recur`), whose boolean result is discarded; a
source file is hash-compared against an existing replica entry and skipped
on a match, otherwise copied. -/
def syncItem (recur : Option Node → Option Node → SyncResult) (name : String)
    (child : Node) (st : FwdState) : FwdState :=
  match child with
  | Node.dir _ =>
      let r := recur (some child) (lookupName st.children name)
      ⟨(match r.replica with
        | some nd => setEntry st.children name nd
        | none => st.children),
       st.copies + r.copies, st.skips + r.skips, st.errors + r.errors⟩
  | Node.file readable content =>
      match lookupName st.children name with
      | some rnode =>
          if calculate_file_hash (some child) = calculate_file_hash (some rnode) then
            ⟨st.children, st.copies, st.skips + 1, st.errors⟩
          else copy_file readable content name st
      | none => copy_file readable content name st

/-- The `for item in os.listdir(source)` loop (`src/main.py` line 163),
threading the replica child list and counters through the items in order. -/
def syncForward (recur : Option Node → Option Node → SyncResult) :
    List (String × Node) → FwdState → FwdState
  | [], st => st
  | (n, c) :: rest, st => syncForward recur rest (syncItem recur n c st)

/-- The reverse pass (`src/main.py` lines 194-198): every current replica
entry whose name does not exist under the source is handed to
`delete_item`; it disappears if the deletion completes, otherwise its
remains stay. -/
def reverse_pass (fuel : Nat) (scs rcs : List (String × Node)) :
    List (String × Node) :=
  rcs.filterMap (fun p =>
    if hasName scs p.1 then some p
    else
      match delete_item fuel p.2 with
      | none => none
      | some c => some (p.1, c))

/-- `synchronize_folders` (`src/main.py` lines 134-200).  The two `Option
Node` arguments are what the source and replica paths resolve to (the two
paths are assumed not to overlap, as the CLI validation requires).  In
order: missing source is fatal (line 143); a missing replica is created
with `os.mkdir` (line 149, which succeeds in this model) BEFORE the
directory-type checks; a non-directory source or replica is fatal (lines
155-161); then the forward pass over the source items and the reverse
deletion pass over the replica items run, and the call returns `True`.
Fuel decreases per directory level; the fuel-0 result is never reached when
fuel exceeds the nesting depth of both trees. -/
def synchronize_folders : Nat → Option Node → Option Node → SyncResult
  | 0, _, rep => ⟨rep, false, 0, 0, 0⟩
  | _ + 1, none, rep => ⟨rep, false, 0, 0, 0⟩
  | fuel + 1, some s, rep =>
      let rep1 : Node :=
        match rep with
        | none => Node.dir []
        | some r => r
      match s with
      | Node.file _ _ => ⟨some rep1, false, 0, 0, 0⟩
      | Node.dir scs =>
          match rep1 with
          | Node.file b c => ⟨some (Node.file b c), false, 0, 0, 0⟩
          | Node.dir rcs =>
              let st := syncForward (fun a b => synchronize_folders fuel a b)
                scs ⟨rcs, 0, 0, 0⟩
              ⟨some (Node.dir (reverse_pass fuel scs st.children)), true,
               st.copies, st.skips, st.errors⟩

/-- `{'s': 1, 'm': 60, 'h': 3600, 'd': 86400}[c]` (`src/main.py` line 99);
`none` models a `KeyError`. -/
def interval_to_seconds (c : Char) : Option Nat :=
  if c = 's' then some 1
  else if c = 'm' then some 60
  else if c = 'h' then some 3600
  else if c = 'd' then some 86400
  else none

/-- `{'s': "seconds", 'm': "minutes", 'h': "hours", 'd': "days"}[c]`
(`src/main.py` lines 100-101); `none` models a `KeyError`. -/
def interval_unit_name (c : Char) : Option String :=
  if c = 's' then some "seconds"
  else if c = 'm' then some "minutes"
  else if c = 'h' then some "hours"
  else if c = 'd' then some "days"
  else none

/-- The interval resolution of `start_sync` (`src/main.py` lines 97-101) for
the unit letter: line 99 looks up `interval.lower()` in the seconds table,
then the `logger.info` f-string on line 101 evaluates
`conversion[interval]` WITHOUT `.lower()`; a `KeyError` there crashes
`start_sync` before the loop starts, modelled by `none`. -/
def start_sync_interval (unit : Char) : Option Nat :=
  match interval_to_seconds unit.toLower with
  | none => none
  | some secs =>
      match interval_unit_name unit with
      | none => none
      | some _ => some secs

/-- Membership in the character class `[smhdSMHD]` of the validation regex
`^\d+[smhdSMHD]$` in `read_commands` (`src/main.py` line 32). -/
def is_interval_unit (c : Char) : Bool :=
  c = 's' || c = 'm' || c = 'h' || c = 'd' ||
  c = 'S' || c = 'M' || c = 'H' || c = 'D'

/-- `re.match(r'^\d+[smhdSMHD]$', s)` from `read_commands`
(`src/main.py` lines 32, 38): one or more digits followed by one unit
letter of either case. -/
def interval_format_ok (s : String) : Bool :=
  match s.data.reverse with
  | [] => false
  | u :: ds => is_interval_unit u && !ds.isEmpty && ds.all Char.isDigit

/-- One scheduler tick of `start_sync` (`src/main.py` line 104): run
`synchronize_folders` on the current world (source tree, replica tree) and
record its boolean result; the source is not mutated between ticks (the
spec assumes no external modification). -/
def sync_step (fuel : Nat) (w : Option Node × Option Node) :
    (Option Node × Option Node) × Bool :=
  let r := synchronize_folders fuel w.1 w.2
  ((w.1, r.replica), r.ok)

/-- The `while True` loop of `start_sync` (`src/main.py` lines 102-107),
counting how many `synchronize_folders` calls are issued within `ticks`
iterations: each iteration makes one call, and `if result == False: break`
stops the loop before any further tick. -/
def start_sync_loop {α : Type} (step : α → α × Bool) : Nat → α → Nat
  | 0, _ => 0
  | ticks + 1, w =>
      let s := step w
      if s.2 = false then 1 else 1 + start_sync_loop step ticks s.1

/-- The world reached after `n` scheduler ticks. -/
def world_after {α : Type} (step : α → α × Bool) : Nat → α → α
  | 0, w => w
  | n + 1, w => world_after step n (step w).1

/-! ### The property language

Fueled Boolean predicates over trees.  Each predicate consumes one unit of
fuel per directory level, in step with `synchronize_folders`, and is `false`
at fuel 0, so `p fuel t = true` also asserts that `fuel` exceeds the
nesting depth of `t`. -/

/-- The names of a directory's entries, in listing order. -/
def namesOf (l : List (String × Node)) : List String := l.map Prod.fst

/-- No name occurs twice in the list (as `os.listdir` guarantees). -/
def distinctNames : List String → Bool
  | [] => true
  | n :: rest => !(rest.contains n) && distinctNames rest

/-- A well-formed tree of depth less than `fuel`: every directory's child
names are distinct, recursively. -/
def wfB : Nat → Node → Bool
  | 0, _ => false
  | _ + 1, Node.file _ _ => true
  | fuel + 1, Node.dir cs =>
      distinctNames (namesOf cs) && cs.all (fun p => wfB fuel p.2)

/-- `wfB` lifted to a possibly missing tree. -/
def wfO : Nat → Option Node → Bool
  | _, none => true
  | fuel, some n => wfB fuel n

/-- Every file in the tree is readable (no I/O error occurs while hashing
or copying it), and the depth is less than `fuel`. -/
def goodB : Nat → Node → Bool
  | 0, _ => false
  | _ + 1, Node.file r _ => r
  | fuel + 1, Node.dir cs => cs.all (fun p => goodB fuel p.2)

/-- No relative path is a directory on one side and a file on the other
(in either direction) between a source tree and an optional replica tree. -/
def noConB : Nat → Node → Option Node → Bool
  | _, _, none => true
  | 0, _, some _ => false
  | _ + 1, Node.file _ _, some (Node.file _ _) => true
  | _ + 1, Node.file _ _, some (Node.dir _) => false
  | _ + 1, Node.dir _, some (Node.file _ _) => false
  | fuel + 1, Node.dir cs, some (Node.dir rcs) =>
      cs.all (fun p => noConB fuel p.2 (lookupName rcs p.1))

/-- No relative path is a file under the source and a directory under the
replica (the one-sided mismatch that makes the copy fail and shields the
replica directory's contents from the reverse pass). -/
def noFileDirB : Nat → Node → Option Node → Bool
  | _, _, none => true
  | 0, _, some _ => false
  | _ + 1, Node.file _ _, some (Node.dir _) => false
  | _ + 1, Node.file _ _, some (Node.file _ _) => true
  | _ + 1, Node.dir _, some (Node.file _ _) => true
  | fuel + 1, Node.dir cs, some (Node.dir rcs) =>
      cs.all (fun p => noFileDirB fuel p.2 (lookupName rcs p.1))

/-- Structural and byte-content identity of the spec's convergence
invariant: every source entry exists under the replica with the same name,
type and (for files) the same bytes, recursively, and no replica entry's
name is absent among the source's entries.  Readability flags are file
metadata, not content, and are ignored. -/
def mirrorsB : Nat → Node → Node → Bool
  | 0, _, _ => false
  | _ + 1, Node.file _ c1, Node.file _ c2 => c1 == c2
  | fuel + 1, Node.dir scs, Node.dir rcs =>
      (scs.all fun p =>
        match lookupName rcs p.1 with
        | some n2 => mirrorsB fuel p.2 n2
        | none => false)
      && (rcs.all fun p => hasName scs p.1)
  | _ + 1, _, _ => false

/-- `mirrorsB` against a possibly missing replica tree. -/
def mirrorsO (fuel : Nat) (src : Node) : Option Node → Bool
  | none => false
  | some r => mirrorsB fuel src r

/-- Resolve a relative path (a list of name segments) inside a tree. -/
def lookupPath : Node → List String → Option Node
  | n, [] => some n
  | Node.file _ _, _ :: _ => none
  | Node.dir cs, x :: rest =>
      match lookupName cs x with
      | none => none
      | some c => lookupPath c rest

/-- The relative path exists under the (possibly missing) tree. -/
def pathInO : Option Node → List String → Bool
  | none, _ => false
  | some n, p => (lookupPath n p).isSome

/-- Resolve a relative path under a possibly missing root. -/
def lookupPathO : Option Node → List String → Option Node
  | none, _ => none
  | some n, p => lookupPath n p

/-! ### Per-item effect of the forward pass

`syncItem` reads the replica child list only at the processed name and
rewrites only that entry; `item_act` states its effect as a function of
that single entry, which the characterization lemma below proves. -/

/-- The effect of one forward-pass item on its replica entry: the new entry
value together with the copy/skip/error log records it produces. -/
structure ItemEffect where
  entry : Option Node
  copies : Nat
  skips : Nat
  errors : Nat

/-- The copy step's effect on the replica entry (see `copy_file`). -/
def copy_act (readable : Bool) (content : List Nat) :
    Option Node → ItemEffect
  | some (Node.dir cs) => ⟨some (Node.dir cs), 0, 0, 1⟩
  | e =>
      if readable then ⟨some (Node.file true content), 1, 0, 0⟩
      else ⟨e, 0, 0, 1⟩

/-- The forward-pass item's effect on the replica entry `e` at its name
(see `syncItem`). -/
def item_act (recur : Option Node → Option Node → SyncResult) (child : Node)
    (e : Option Node) : ItemEffect :=
  match child with
  | Node.dir _ =>
      let r := recur (some child) e
      ⟨(match r.replica with
        | some nd => some nd
        | none => e), r.copies, r.skips, r.errors⟩
  | Node.file readable content =>
      match e with
      | some rnode =>
          if calculate_file_hash (some child) = calculate_file_hash (some rnode) then
            ⟨some rnode, 0, 1, 0⟩
          else copy_act readable content (some rnode)
      | none => copy_act readable content none

/-- The four root-level checks of `synchronize_folders` (lines 143-161),
written down independently from the claim's words: the source exists and is
a directory, and the replica is either absent (so `os.mkdir` creates it) or
a directory. -/
def root_checks_spec : Option Node → Option Node → Bool
  | none, _ => false
  | some (Node.file _ _), _ => false
  | some (Node.dir _), some (Node.file _ _) => false
  | some (Node.dir _), _ => true

/-! ### Unfolding equations of `synchronize_folders` -/

theorem sync_zero (src rep : Option Node) :
    synchronize_folders 0 src rep = ⟨rep, false, 0, 0, 0⟩ := rfl

theorem sync_src_missing (fuel : Nat) (rep : Option Node) :
    synchronize_folders (fuel + 1) none rep = ⟨rep, false, 0, 0, 0⟩ := rfl

theorem sync_src_file (fuel : Nat) (b : Bool) (c : List Nat) (r : Node) :
    synchronize_folders (fuel + 1) (some (Node.file b c)) (some r)
      = ⟨some r, false, 0, 0, 0⟩ := rfl

theorem sync_src_file_mkdir (fuel : Nat) (b : Bool) (c : List Nat) :
    synchronize_folders (fuel + 1) (some (Node.file b c)) none
      = ⟨some (Node.dir []), false, 0, 0, 0⟩ := rfl

theorem sync_rep_file (fuel : Nat) (scs : List (String × Node)) (b : Bool)
    (c : List Nat) :
    synchronize_folders (fuel + 1) (some (Node.dir scs)) (some (Node.file b c))
      = ⟨some (Node.file b c), false, 0, 0, 0⟩ := rfl

theorem sync_dir_dir (fuel : Nat) (scs rcs : List (String × Node)) :
    synchronize_folders (fuel + 1) (some (Node.dir scs)) (some (Node.dir rcs))
      = ⟨some (Node.dir (reverse_pass fuel scs
            (syncForward (fun a b => synchronize_folders fuel a b) scs
              ⟨rcs, 0, 0, 0⟩).children)), true,
         (syncForward (fun a b => synchronize_folders fuel a b) scs
           ⟨rcs, 0, 0, 0⟩).copies,
         (syncForward (fun a b => synchronize_folders fuel a b) scs
           ⟨rcs, 0, 0, 0⟩).skips,
         (syncForward (fun a b => synchronize_folders fuel a b) scs
           ⟨rcs, 0, 0, 0⟩).errors⟩ := rfl

theorem sync_dir_mkdir (fuel : Nat) (scs : List (String × Node)) :
    synchronize_folders (fuel + 1) (some (Node.dir scs)) none
      = synchronize_folders (fuel + 1) (some (Node.dir scs)) (some (Node.dir [])) := rfl

/-! ### Basic lemmas about directory listings -/

theorem lookupName_setEntry_self (l : List (String × Node)) (n : String) (v : Node) :
    lookupName (setEntry l n v) n = some v := by
  induction l with
  | nil => simp [setEntry, lookupName]
  | cons p rest ih =>
      obtain ⟨m, c⟩ := p
      by_cases h : m = n
      · simp [setEntry, h, lookupName]
      · simp [setEntry, h, lookupName, ih]

theorem lookupName_setEntry_ne (l : List (String × Node)) {m n : String}
    (v : Node) (h : m ≠ n) :
    lookupName (setEntry l n v) m = lookupName l m := by
  have hnm : n ≠ m := fun hh => h hh.symm
  induction l with
  | nil => simp [setEntry, lookupName, hnm]
  | cons p rest ih =>
      obtain ⟨k, c⟩ := p
      by_cases hk : k = n
      · subst hk
        simp [setEntry, lookupName, hnm]
      · by_cases hm2 : k = m
        · subst hm2
          simp [setEntry, lookupName, h]
        · simp [setEntry, hk, lookupName, hm2, ih]

theorem setEntry_self {l : List (String × Node)} {n : String} {v : Node}
    (h : lookupName l n = some v) : setEntry l n v = l := by
  induction l with
  | nil => simp [lookupName] at h
  | cons p rest ih =>
      obtain ⟨m, c⟩ := p
      by_cases hm : m = n
      · subst hm
        simp [lookupName] at h
        simp [setEntry, h]
      · simp [lookupName, hm] at h
        simp [setEntry, hm, ih h]

theorem mem_setEntry_of_ne {l : List (String × Node)} {n : String} {v : Node}
    {q : String × Node} (h : q.1 ≠ n) : q ∈ setEntry l n v ↔ q ∈ l := by
  induction l with
  | nil =>
      constructor
      · intro hq
        simp [setEntry] at hq
        exact absurd (by simp [hq]) h
      · intro hq
        simp at hq
  | cons p rest ih =>
      obtain ⟨m, c⟩ := p
      by_cases hm : m = n
      · subst hm
        constructor
        · intro hq
          simp [setEntry] at hq
          rcases hq with hq | hq
          · exact absurd (by simp [hq]) h
          · exact List.mem_cons_of_mem _ hq
        · intro hq
          rcases List.mem_cons.mp hq with hq | hq
          · exact absurd (by simp [hq]) h
          · simp [setEntry]
            exact Or.inr hq
      · constructor
        · intro hq
          simp only [setEntry, if_neg hm] at hq
          rcases List.mem_cons.mp hq with hq | hq
          · exact hq ▸ List.mem_cons_self _ _
          · exact List.mem_cons_of_mem _ (ih.mp hq)
        · intro hq
          simp only [setEntry, if_neg hm]
          rcases List.mem_cons.mp hq with hq | hq
          · exact hq ▸ List.mem_cons_self _ _
          · exact List.mem_cons_of_mem _ (ih.mpr hq)

theorem lookupName_mem {l : List (String × Node)} {n : String} {v : Node}
    (h : lookupName l n = some v) : (n, v) ∈ l := by
  induction l with
  | nil => simp [lookupName] at h
  | cons p rest ih =>
      obtain ⟨m, c⟩ := p
      by_cases hm : m = n
      · subst hm
        simp [lookupName] at h
        simp [h]
      · simp [lookupName, hm] at h
        exact List.mem_cons_of_mem _ (ih h)

theorem hasName_of_mem {l : List (String × Node)} {n : String} {v : Node}
    (h : (n, v) ∈ l) : hasName l n = true := by
  induction l with
  | nil => simp at h
  | cons p rest ih =>
      obtain ⟨m, c⟩ := p
      rcases List.mem_cons.mp h with hq | hq
      · have : m = n := by simpa using congrArg Prod.fst hq.symm
        simp [hasName, lookupName, this]
      · by_cases hm : m = n
        · simp [hasName, lookupName, hm]
        · simpa [hasName, lookupName, hm] using ih hq

theorem not_mem_of_hasName_false {l : List (String × Node)} {n : String}
    (h : hasName l n = false) (v : Node) : ¬ (n, v) ∈ l := by
  intro hm
  rw [hasName_of_mem hm] at h
  cases h

theorem hasName_cons_false {p : String × Node} {rest : List (String × Node)}
    {m : String} (h : hasName (p :: rest) m = false) :
    p.1 ≠ m ∧ hasName rest m = false := by
  obtain ⟨k, c⟩ := p
  by_cases hk : k = m
  · simp [hasName, lookupName, hk] at h
  · simpa [hasName, lookupName, hk] using h

theorem hasName_eq_contains (l : List (String × Node)) (n : String) :
    hasName l n = (namesOf l).contains n := by
  induction l with
  | nil => simp [hasName, lookupName, namesOf]
  | cons p rest ih =>
      obtain ⟨m, c⟩ := p
      by_cases hm : m = n
      · simp [hasName, lookupName, hm, namesOf]
      · have hnm : ¬ (n = m) := fun hh => hm hh.symm
        have hb : (n == m) = false := beq_eq_false_iff_ne.mpr hnm
        simpa [hasName, lookupName, hm, namesOf, hb] using ih

/-! ### The hasher digests the full byte stream -/

theorem read_chunks_eq : ∀ (fuel : Nat) (acc l : List Nat),
    l.length < fuel → read_chunks fuel acc l = acc ++ l := by
  intro fuel
  induction fuel with
  | zero => intro acc l h; omega
  | succ f ih =>
      intro acc l h
      match l with
      | [] => simp [read_chunks]
      | b :: rest =>
          rw [read_chunks]
          have hlen : ((b :: rest).drop CHUNK_SIZE).length < f := by
            rw [List.length_drop]
            simp only [List.length_cons] at h ⊢
            have : 0 < CHUNK_SIZE := by decide
            omega
          rw [ih _ _ hlen, md5_update, List.append_assoc,
            List.take_append_drop]

theorem calculate_file_hash_readable (c : List Nat) :
    calculate_file_hash (some (Node.file true c)) = some c := by
  rw [calculate_file_hash, read_chunks_eq (c.length + 1) [] c (by omega)]
  simp

/-! ### `delete_item` removes a well-formed tree completely -/

theorem delete_item_of_wfB : ∀ (fuel : Nat) (n : Node),
    wfB fuel n = true → delete_item fuel n = none := by
  intro fuel
  induction fuel with
  | zero => intro n h; simp [wfB] at h
  | succ f ih =>
      intro n h
      match n with
      | Node.file b c => rfl
      | Node.dir cs =>
          rw [wfB, Bool.and_eq_true, List.all_eq_true] at h
          rw [delete_item]
          have : cs.filterMap (fun p => (delete_item f p.2).map (fun c => (p.1, c)))
              = [] := by
            rw [List.filterMap_eq_nil_iff]
            intro p hp
            rw [ih p.2 (h.2 p hp)]
            rfl
          rw [this]

/-! ### Lemmas about the reverse (deletion) pass -/

theorem reverse_pass_lookup_kept (fuel : Nat) (scs : List (String × Node)) :
    ∀ (l : List (String × Node)) (n : String), hasName scs n = true →
    lookupName (reverse_pass fuel scs l) n = lookupName l n := by
  intro l
  induction l with
  | nil => intro n _; rfl
  | cons p rest ih =>
      intro n hn
      obtain ⟨m, c⟩ := p
      by_cases hm : m = n
      · subst hm
        simp only [reverse_pass, List.filterMap_cons, hn, if_pos rfl]
        simp [lookupName]
      · have step : reverse_pass fuel scs ((m, c) :: rest)
            = (if hasName scs m then some (m, c)
               else match delete_item fuel c with
                    | none => none
                    | some c2 => some (m, c2)).toList
              ++ reverse_pass fuel scs rest := by
          simp [reverse_pass, List.filterMap_cons]
          cases hs : hasName scs m <;> simp
          cases delete_item fuel c <;> simp
        rw [step]
        cases hs : hasName scs m
        · cases hd : delete_item fuel c <;>
            simp [lookupName, hm, ih n hn]
        · simp [lookupName, hm, ih n hn]

theorem mem_reverse_pass_names (fuel : Nat) (scs : List (String × Node))
    (l : List (String × Node))
    (h : ∀ p ∈ l, hasName scs p.1 = false → wfB fuel p.2 = true) :
    ∀ q ∈ reverse_pass fuel scs l, hasName scs q.1 = true := by
  intro q hq
  rw [reverse_pass, List.mem_filterMap] at hq
  obtain ⟨p, hp, hfp⟩ := hq
  cases hs : hasName scs p.1
  · rw [delete_item_of_wfB fuel p.2 (h p hp hs)] at hfp
    simp [hs] at hfp
  · simp [hs] at hfp
    exact hfp ▸ hs

theorem reverse_pass_id (fuel : Nat) (scs : List (String × Node)) :
    ∀ (l : List (String × Node)), (∀ p ∈ l, hasName scs p.1 = true) →
    reverse_pass fuel scs l = l := by
  intro l
  induction l with
  | nil => intro _; rfl
  | cons p rest ih =>
      intro h
      have hp := h p (List.mem_cons_self _ _)
      have h2 := ih (fun q hq => h q (List.mem_cons_of_mem _ hq))
      rw [reverse_pass] at h2
      simp [reverse_pass, List.filterMap_cons, hp, h2]

/-! ### Characterization of one forward-pass item -/

theorem item_act_entry_none {recur : Option Node → Option Node → SyncResult}
    {child : Node} {e : Option Node}
    (h : (item_act recur child e).entry = none) : e = none := by
  cases e with
  | none => rfl
  | some rnode =>
      exfalso
      cases child with
      | dir ccs =>
          simp only [item_act] at h
          cases hr : (recur (some (Node.dir ccs)) (some rnode)).replica <;>
            simp [hr] at h
      | file r cnt =>
          simp only [item_act] at h
          by_cases hh : calculate_file_hash (some (Node.file r cnt))
              = calculate_file_hash (some rnode)
          · simp [hh] at h
          · cases r with
            | false =>
                cases rnode <;> simp [hh, copy_act] at h
            | true =>
                cases rnode <;> simp [hh, copy_act] at h

theorem syncItem_char (recur : Option Node → Option Node → SyncResult)
    (n : String) (child : Node) (st : FwdState) :
    syncItem recur n child st =
      ⟨(match (item_act recur child (lookupName st.children n)).entry with
        | some nd => setEntry st.children n nd
        | none => st.children),
       st.copies + (item_act recur child (lookupName st.children n)).copies,
       st.skips + (item_act recur child (lookupName st.children n)).skips,
       st.errors + (item_act recur child (lookupName st.children n)).errors⟩ := by
  cases child with
  | dir ccs =>
      simp only [syncItem, item_act]
      cases hr : (recur (some (Node.dir ccs)) (lookupName st.children n)).replica with
      | some nd => simp [hr]
      | none =>
          simp only [hr]
          cases he : lookupName st.children n with
          | none => simp
          | some x => simp [setEntry_self he]
  | file r cnt =>
      cases he : lookupName st.children n with
      | none =>
          cases r <;> simp [syncItem, item_act, he, copy_file, copy_act]
      | some rnode =>
          simp only [syncItem, item_act, he]
          by_cases hh : calculate_file_hash (some (Node.file r cnt))
              = calculate_file_hash (some rnode)
          · simp [hh, setEntry_self he]
          · cases r with
            | false =>
                cases rnode with
                | dir cs => simp [hh, copy_file, copy_act, he, setEntry_self he]
                | file rb rc => simp [hh, copy_file, copy_act, he, setEntry_self he]
            | true =>
                cases rnode with
                | dir cs => simp [hh, copy_file, copy_act, he, setEntry_self he]
                | file rb rc => simp [hh, copy_file, copy_act, he]

theorem syncItem_lookup_self (recur : Option Node → Option Node → SyncResult)
    (n : String) (child : Node) (st : FwdState) :
    lookupName (syncItem recur n child st).children n
      = (item_act recur child (lookupName st.children n)).entry := by
  rw [syncItem_char]
  cases ha : (item_act recur child (lookupName st.children n)).entry with
  | some nd => simp [ha, lookupName_setEntry_self]
  | none =>
      simp only [ha]
      exact item_act_entry_none ha

theorem syncItem_lookup_ne (recur : Option Node → Option Node → SyncResult)
    {m n : String} (child : Node) (st : FwdState) (h : m ≠ n) :
    lookupName (syncItem recur n child st).children m = lookupName st.children m := by
  rw [syncItem_char]
  cases ha : (item_act recur child (lookupName st.children n)).entry with
  | some nd => simp [ha, lookupName_setEntry_ne _ _ h]
  | none => simp [ha]

theorem syncItem_mem_ne (recur : Option Node → Option Node → SyncResult)
    (n : String) (child : Node) (st : FwdState) {q : String × Node}
    (h : q.1 ≠ n) :
    q ∈ (syncItem recur n child st).children ↔ q ∈ st.children := by
  rw [syncItem_char]
  cases ha : (item_act recur child (lookupName st.children n)).entry with
  | some nd => simp only [ha]; exact mem_setEntry_of_ne h
  | none => simp [ha]

theorem syncItem_copies (recur : Option Node → Option Node → SyncResult)
    (n : String) (child : Node) (st : FwdState) :
    (syncItem recur n child st).copies
      = st.copies + (item_act recur child (lookupName st.children n)).copies := by
  rw [syncItem_char]

theorem syncItem_skips (recur : Option Node → Option Node → SyncResult)
    (n : String) (child : Node) (st : FwdState) :
    (syncItem recur n child st).skips
      = st.skips + (item_act recur child (lookupName st.children n)).skips := by
  rw [syncItem_char]

theorem syncItem_errors (recur : Option Node → Option Node → SyncResult)
    (n : String) (child : Node) (st : FwdState) :
    (syncItem recur n child st).errors
      = st.errors + (item_act recur child (lookupName st.children n)).errors := by
  rw [syncItem_char]

/-! ### The forward pass, item by item

With distinct source names, each item of the forward pass reads and
rewrites only the replica entry of its own name, so the final child list
and the counters decompose per item. -/

theorem syncForward_spec (recur : Option Node → Option Node → SyncResult) :
    ∀ (todo : List (String × Node)) (st : FwdState),
    distinctNames (namesOf todo) = true →
    ((∀ n c, (n, c) ∈ todo →
        lookupName (syncForward recur todo st).children n
          = (item_act recur c (lookupName st.children n)).entry)
     ∧ (∀ m, hasName todo m = false →
          lookupName (syncForward recur todo st).children m
            = lookupName st.children m)
     ∧ (∀ q : String × Node, hasName todo q.1 = false →
          (q ∈ (syncForward recur todo st).children ↔ q ∈ st.children))
     ∧ (syncForward recur todo st).copies
        = st.copies + (todo.map (fun p =>
            (item_act recur p.2 (lookupName st.children p.1)).copies)).sum
     ∧ (syncForward recur todo st).skips
        = st.skips + (todo.map (fun p =>
            (item_act recur p.2 (lookupName st.children p.1)).skips)).sum
     ∧ (syncForward recur todo st).errors
        = st.errors + (todo.map (fun p =>
            (item_act recur p.2 (lookupName st.children p.1)).errors)).sum) := by
  intro todo
  induction todo with
  | nil =>
      intro st _
      refine ⟨?_, ?_, ?_, ?_, ?_, ?_⟩ <;> simp [syncForward]
  | cons p rest ih =>
      obtain ⟨n, c⟩ := p
      intro st hd
      rw [show namesOf ((n, c) :: rest) = n :: namesOf rest from rfl,
        distinctNames, Bool.and_eq_true, Bool.not_eq_true'] at hd
      obtain ⟨hn, hrest⟩ := hd
      have hnn : hasName rest n = false := by
        rw [hasName_eq_contains]; exact hn
      have hnotin : n ∉ namesOf rest := by
        simpa [namesOf] using hn
      have hne_of_mem : ∀ q : String × Node, q ∈ rest → q.1 ≠ n := by
        intro q hq he
        exact hnotin (he ▸ List.mem_map_of_mem Prod.fst hq)
      have hfwd : syncForward recur ((n, c) :: rest) st
          = syncForward recur rest (syncItem recur n c st) := rfl
      obtain ⟨ih1, ih2, ih3, ih4, ih5, ih6⟩ := ih (syncItem recur n c st) hrest
      have hself : lookupName (syncItem recur n c st).children n
          = (item_act recur c (lookupName st.children n)).entry :=
        syncItem_lookup_self recur n c st
      have hpreserve : ∀ p : String × Node, p ∈ rest →
          lookupName (syncItem recur n c st).children p.1
            = lookupName st.children p.1 := by
        intro p hp
        exact syncItem_lookup_ne recur c st (hne_of_mem p hp)
      refine ⟨?_, ?_, ?_, ?_, ?_, ?_⟩
      · intro n' c' hmem
        rw [hfwd]
        rcases List.mem_cons.mp hmem with hq | hq
        · have hn' : n' = n := by simpa using congrArg Prod.fst hq
          have hc' : c' = c := by simpa using congrArg Prod.snd hq
          subst hn'; subst hc'
          rw [ih2 n' hnn, hself]
        · rw [ih1 n' c' hq, hpreserve (n', c') hq]
      · intro m hm
        obtain ⟨hm1, hm2⟩ := hasName_cons_false hm
        rw [hfwd, ih2 m hm2]
        exact syncItem_lookup_ne recur c st (fun he => hm1 he.symm)
      · intro q hq
        obtain ⟨hm1, hm2⟩ := hasName_cons_false hq
        rw [hfwd]
        exact (ih3 q hm2).trans
          (syncItem_mem_ne recur n c st (fun he => hm1 he.symm))
      · have hmap : rest.map (fun p =>
            (item_act recur p.2 (lookupName (syncItem recur n c st).children p.1)).copies)
            = rest.map (fun p =>
            (item_act recur p.2 (lookupName st.children p.1)).copies) :=
          List.map_congr_left (fun p hp => by rw [hpreserve p hp])
        rw [hfwd, ih4, hmap, syncItem_copies, List.map_cons, List.sum_cons]
        dsimp only
        omega
      · have hmap : rest.map (fun p =>
            (item_act recur p.2 (lookupName (syncItem recur n c st).children p.1)).skips)
            = rest.map (fun p =>
            (item_act recur p.2 (lookupName st.children p.1)).skips) :=
          List.map_congr_left (fun p hp => by rw [hpreserve p hp])
        rw [hfwd, ih5, hmap, syncItem_skips, List.map_cons, List.sum_cons]
        dsimp only
        omega
      · have hmap : rest.map (fun p =>
            (item_act recur p.2 (lookupName (syncItem recur n c st).children p.1)).errors)
            = rest.map (fun p =>
            (item_act recur p.2 (lookupName st.children p.1)).errors) :=
          List.map_congr_left (fun p hp => by rw [hpreserve p hp])
        rw [hfwd, ih6, hmap, syncItem_errors, List.map_cons, List.sum_cons]
        dsimp only
        omega

/-! ### Unfolding lemmas for the fueled predicates -/

theorem wfB_dir_distinct {fuel : Nat} {cs : List (String × Node)}
    (h : wfB (fuel + 1) (Node.dir cs) = true) :
    distinctNames (namesOf cs) = true := by
  rw [wfB, Bool.and_eq_true] at h; exact h.1

theorem wfB_dir_children {fuel : Nat} {cs : List (String × Node)}
    (h : wfB (fuel + 1) (Node.dir cs) = true) :
    ∀ p ∈ cs, wfB fuel p.2 = true := by
  rw [wfB, Bool.and_eq_true, List.all_eq_true] at h; exact h.2

theorem wfB_lookup {fuel : Nat} {cs : List (String × Node)} {n : String}
    {v : Node} (h : wfB (fuel + 1) (Node.dir cs) = true)
    (hl : lookupName cs n = some v) : wfB fuel v = true :=
  wfB_dir_children h (n, v) (lookupName_mem hl)

theorem goodB_dir_children {fuel : Nat} {cs : List (String × Node)}
    (h : goodB (fuel + 1) (Node.dir cs) = true) :
    ∀ p ∈ cs, goodB fuel p.2 = true := by
  rw [goodB, List.all_eq_true] at h; exact h

theorem noConB_none (fuel : Nat) (child : Node) :
    noConB fuel child none = true := by
  cases child <;> cases fuel <;> rfl

theorem noConB_dir_children {fuel : Nat} {scs rcs : List (String × Node)}
    (h : noConB (fuel + 1) (Node.dir scs) (some (Node.dir rcs)) = true) :
    ∀ p ∈ scs, noConB fuel p.2 (lookupName rcs p.1) = true := by
  rw [noConB, List.all_eq_true] at h; exact h

theorem noFileDirB_none (fuel : Nat) (child : Node) :
    noFileDirB fuel child none = true := by
  cases child <;> cases fuel <;> rfl

theorem noFileDirB_dir_children {fuel : Nat} {scs rcs : List (String × Node)}
    (h : noFileDirB (fuel + 1) (Node.dir scs) (some (Node.dir rcs)) = true) :
    ∀ p ∈ scs, noFileDirB fuel p.2 (lookupName rcs p.1) = true := by
  rw [noFileDirB, List.all_eq_true] at h; exact h

theorem wfO_lookup {fuel : Nat} {rcs : List (String × Node)}
    (h : wfB (fuel + 1) (Node.dir rcs) = true) (n : String) :
    wfO fuel (lookupName rcs n) = true := by
  cases hl : lookupName rcs n with
  | none => rfl
  | some v => exact wfB_lookup h hl

/-- Any call on an existing source directory leaves some replica tree. -/
theorem sync_replica_isSome (fuel : Nat) (scs : List (String × Node))
    (rep : Option Node) :
    ∃ t, (synchronize_folders (fuel + 1) (some (Node.dir scs)) rep).replica
      = some t := by
  cases rep with
  | none => exact ⟨_, by rw [sync_dir_mkdir, sync_dir_dir]⟩
  | some r =>
      cases r with
      | file b c => exact ⟨Node.file b c, rfl⟩
      | dir rcs => exact ⟨_, by rw [sync_dir_dir]⟩

/-! ### Per-item convergence -/

/-- Under well-formedness, readability of the source child and absence of
type conflicts, the forward-pass item leaves a replica entry that mirrors
the source child.  `ih` is the convergence statement one directory level
deeper. -/
theorem item_act_mirrors (fuel : Nat)
    (ih : ∀ (scs : List (String × Node)) (rep : Option Node),
        wfB fuel (Node.dir scs) = true →
        goodB fuel (Node.dir scs) = true → wfO fuel rep = true →
        noConB fuel (Node.dir scs) rep = true →
        (synchronize_folders fuel (some (Node.dir scs)) rep).ok = true ∧
        mirrorsO fuel (Node.dir scs)
          (synchronize_folders fuel (some (Node.dir scs)) rep).replica = true)
    (c : Node) (e : Option Node)
    (hwf : wfB fuel c = true) (hgood : goodB fuel c = true)
    (hwfe : wfO fuel e = true) (hcon : noConB fuel c e = true) :
    ∃ nd, (item_act (fun a b => synchronize_folders fuel a b) c e).entry = some nd
      ∧ mirrorsB fuel c nd = true := by
  cases fuel with
  | zero => simp [wfB] at hwf
  | succ f =>
      cases c with
      | file r cnt =>
          have hr : r = true := by simpa [goodB] using hgood
          subst hr
          cases e with
          | none =>
              refine ⟨Node.file true cnt, ?_, ?_⟩
              · simp [item_act, copy_act]
              · simp [mirrorsB]
          | some rnode =>
              cases rnode with
              | dir cs => simp [noConB] at hcon
              | file r2 c2 =>
                  by_cases hh : calculate_file_hash (some (Node.file true cnt))
                      = calculate_file_hash (some (Node.file r2 c2))
                  · refine ⟨Node.file r2 c2, ?_, ?_⟩
                    · simp [item_act, hh]
                    · cases r2 with
                      | false =>
                          rw [calculate_file_hash_readable] at hh
                          simp [calculate_file_hash] at hh
                      | true =>
                          rw [calculate_file_hash_readable,
                            calculate_file_hash_readable] at hh
                          have hcc : cnt = c2 := by simpa using hh
                          simp [mirrorsB, hcc]
                  · refine ⟨Node.file true cnt, ?_, ?_⟩
                    · simp [item_act, hh, copy_act]
                    · simp [mirrorsB]
      | dir ccs =>
          have hrepl : ∃ t,
              (synchronize_folders (f + 1) (some (Node.dir ccs)) e).replica
                = some t := by
            cases e with
            | none => exact sync_replica_isSome f ccs none
            | some r => exact sync_replica_isSome f ccs (some r)
          obtain ⟨t, ht⟩ := hrepl
          have hcon2 : noConB (f + 1) (Node.dir ccs) e = true := hcon
          obtain ⟨hok, hmir⟩ := ih ccs e hwf hgood hwfe hcon2
          rw [ht] at hmir
          refine ⟨t, ?_, hmir⟩
          simp [item_act, ht]

/-! ### Convergence of one pass -/

/-- The common directory/directory case of the convergence induction. -/
theorem sync_good_mirrors_core (f : Nat)
    (ih : ∀ (scs : List (String × Node)) (rep : Option Node),
        wfB f (Node.dir scs) = true →
        goodB f (Node.dir scs) = true → wfO f rep = true →
        noConB f (Node.dir scs) rep = true →
        (synchronize_folders f (some (Node.dir scs)) rep).ok = true ∧
        mirrorsO f (Node.dir scs)
          (synchronize_folders f (some (Node.dir scs)) rep).replica = true)
    (scs rcs : List (String × Node))
    (hwf : wfB (f + 1) (Node.dir scs) = true)
    (hgood : goodB (f + 1) (Node.dir scs) = true)
    (hwfr : wfB (f + 1) (Node.dir rcs) = true)
    (hcon : noConB (f + 1) (Node.dir scs) (some (Node.dir rcs)) = true) :
    (synchronize_folders (f + 1) (some (Node.dir scs)) (some (Node.dir rcs))).ok
      = true ∧
    mirrorsO (f + 1) (Node.dir scs)
      (synchronize_folders (f + 1) (some (Node.dir scs))
        (some (Node.dir rcs))).replica = true := by
  obtain ⟨f1, f2, f3, _, _, _⟩ :=
    syncForward_spec (fun a b => synchronize_folders f a b) scs ⟨rcs, 0, 0, 0⟩
      (wfB_dir_distinct hwf)
  rw [sync_dir_dir]
  refine ⟨rfl, ?_⟩
  show mirrorsB (f + 1) (Node.dir scs) (Node.dir (reverse_pass f scs
    (syncForward (fun a b => synchronize_folders f a b) scs
      ⟨rcs, 0, 0, 0⟩).children)) = true
  rw [mirrorsB, Bool.and_eq_true, List.all_eq_true, List.all_eq_true]
  constructor
  · intro p hp
    obtain ⟨n, c⟩ := p
    have hname : hasName scs n = true := hasName_of_mem hp
    have hitem :=
      item_act_mirrors f ih c (lookupName rcs n)
        (wfB_dir_children hwf (n, c) hp)
        (goodB_dir_children hgood (n, c) hp)
        (wfO_lookup hwfr n)
        (noConB_dir_children hcon (n, c) hp)
    obtain ⟨nd, hnd, hm⟩ := hitem
    have hlook : lookupName (reverse_pass f scs
        (syncForward (fun a b => synchronize_folders f a b) scs
          ⟨rcs, 0, 0, 0⟩).children) n = some nd := by
      rw [reverse_pass_lookup_kept f scs _ n hname, f1 n c hp]
      exact hnd
    simp only [hlook]
    exact hm
  · intro q hq
    refine mem_reverse_pass_names f scs _ ?_ q hq
    intro p hp hfalse
    exact wfB_dir_children hwfr p ((f3 p hfalse).mp hp)

/-- Convergence: with readable source files and no file/directory type
conflicts, a pass returns `True` and leaves the replica mirroring the
source. -/
theorem sync_good_mirrors : ∀ (fuel : Nat) (scs : List (String × Node))
    (rep : Option Node),
    wfB fuel (Node.dir scs) = true → goodB fuel (Node.dir scs) = true →
    wfO fuel rep = true → noConB fuel (Node.dir scs) rep = true →
    (synchronize_folders fuel (some (Node.dir scs)) rep).ok = true ∧
    mirrorsO fuel (Node.dir scs)
      (synchronize_folders fuel (some (Node.dir scs)) rep).replica = true := by
  intro fuel
  induction fuel with
  | zero => intro scs rep hwf _ _ _; simp [wfB] at hwf
  | succ f ih =>
      intro scs rep hwf hgood hwfr hcon
      cases rep with
      | none =>
          rw [sync_dir_mkdir]
          refine sync_good_mirrors_core f ih scs [] hwf hgood (by rfl) ?_
          rw [noConB, List.all_eq_true]
          intro p _
          exact noConB_none f p.2
      | some r =>
          cases r with
          | file b c => simp [noConB] at hcon
          | dir rcs => exact sync_good_mirrors_core f ih scs rcs hwf hgood hwfr hcon

/-! ### No orphan survives a pass (absent type conflicts) -/

theorem noFileDirB_file_dir_false (fuel : Nat) (b : Bool) (c : List Nat)
    (cs : List (String × Node)) :
    noFileDirB fuel (Node.file b c) (some (Node.dir cs)) = false := by
  cases fuel <;> rfl

/-- A forward-pass item for a source file leaves a file entry (or none),
provided the replica entry is not a directory. -/
theorem item_act_file_shape (recur : Option Node → Option Node → SyncResult)
    (r : Bool) (cnt : List Nat) (e0 : Option Node)
    (hcon : ∀ cs, e0 ≠ some (Node.dir cs)) {nd : Node}
    (h : (item_act recur (Node.file r cnt) e0).entry = some nd) :
    ∃ b bc, nd = Node.file b bc := by
  cases e0 with
  | none =>
      cases r with
      | true =>
          simp [item_act, copy_act] at h
          exact ⟨true, cnt, h.symm⟩
      | false => simp [item_act, copy_act] at h
  | some rnode =>
      cases rnode with
      | dir cs => exact absurd rfl (hcon cs)
      | file rb rc =>
          by_cases hh : calculate_file_hash (some (Node.file r cnt))
              = calculate_file_hash (some (Node.file rb rc))
          · simp [item_act, hh] at h
            exact ⟨rb, rc, h.symm⟩
          · cases r with
            | true =>
                simp [item_act, hh, copy_act] at h
                exact ⟨true, cnt, h.symm⟩
            | false =>
                simp [item_act, hh, copy_act] at h
                exact ⟨rb, rc, h.symm⟩

/-- The directory/directory case of the no-orphans induction. -/
theorem sync_no_orphans_core (f : Nat)
    (ih : ∀ (scs : List (String × Node)) (rep : Option Node),
        wfB f (Node.dir scs) = true → wfO f rep = true →
        noFileDirB f (Node.dir scs) rep = true →
        ∀ p : List String,
          pathInO (synchronize_folders f (some (Node.dir scs)) rep).replica p
            = true →
          pathInO (some (Node.dir scs)) p = true)
    (scs rcs : List (String × Node))
    (hwf : wfB (f + 1) (Node.dir scs) = true)
    (hwfr : wfB (f + 1) (Node.dir rcs) = true)
    (hcon : noFileDirB (f + 1) (Node.dir scs) (some (Node.dir rcs)) = true) :
    ∀ p : List String,
      pathInO (synchronize_folders (f + 1) (some (Node.dir scs))
        (some (Node.dir rcs))).replica p = true →
      pathInO (some (Node.dir scs)) p = true := by
  obtain ⟨fw1, fw2, fw3, _, _, _⟩ :=
    syncForward_spec (fun a b => synchronize_folders f a b) scs ⟨rcs, 0, 0, 0⟩
      (wfB_dir_distinct hwf)
  intro p hp
  rw [sync_dir_dir] at hp
  cases p with
  | nil => rfl
  | cons n rest =>
      rw [pathInO, lookupPath] at hp
      cases he : lookupName (reverse_pass f scs
          (syncForward (fun a b => synchronize_folders f a b) scs
            ⟨rcs, 0, 0, 0⟩).children) n with
      | none => rw [he] at hp; simp at hp
      | some e =>
          rw [he] at hp
          have hname : hasName scs n = true := by
            refine mem_reverse_pass_names f scs _ ?_ (n, e) (lookupName_mem he)
            intro q hq hfalse
            exact wfB_dir_children hwfr q ((fw3 q hfalse).mp hq)
          obtain ⟨c, hc⟩ : ∃ c, lookupName scs n = some c := by
            rw [hasName] at hname
            exact Option.isSome_iff_exists.mp hname
          have hmem : (n, c) ∈ scs := lookupName_mem hc
          have hact : (item_act (fun a b => synchronize_folders f a b) c
              (lookupName rcs n)).entry = some e := by
            rw [← fw1 n c hmem, ← reverse_pass_lookup_kept f scs _ n hname]
            exact he
          have hconc : noFileDirB f c (lookupName rcs n) = true :=
            noFileDirB_dir_children hcon (n, c) hmem
          cases c with
          | file rb cnt =>
              have hshape : ∃ b bc, e = Node.file b bc := by
                refine item_act_file_shape _ rb cnt (lookupName rcs n) ?_ hact
                intro cs hcs
                rw [hcs, noFileDirB_file_dir_false] at hconc
                cases hconc
              obtain ⟨b, bc, hbe⟩ := hshape
              subst hbe
              cases rest with
              | nil => simp [pathInO, lookupPath, hc]
              | cons x xs => simp [lookupPath] at hp
          | dir ccs =>
              have hwfc : wfB f (Node.dir ccs) = true :=
                wfB_dir_children hwf (n, Node.dir ccs) hmem
              obtain ⟨fb, hfb⟩ : ∃ fb, f = fb + 1 := by
                cases f with
                | zero => simp [wfB] at hwfc
                | succ fb => exact ⟨fb, rfl⟩
              obtain ⟨t, ht⟩ : ∃ t,
                  (synchronize_folders f (some (Node.dir ccs))
                    (lookupName rcs n)).replica = some t := by
                rw [hfb]
                exact sync_replica_isSome fb ccs (lookupName rcs n)
              have hte : e = t := by
                have hview : (item_act (fun a b => synchronize_folders f a b)
                    (Node.dir ccs) (lookupName rcs n)).entry = some t := by
                  simp [item_act, ht]
                rw [hact] at hview
                exact Option.some.inj hview
              subst hte
              have hrest : pathInO (some (Node.dir ccs)) rest = true := by
                refine ih ccs (lookupName rcs n) hwfc
                  (wfO_lookup hwfr n) hconc rest ?_
                rw [ht]
                exact hp
              simp only [pathInO, lookupPath, hc]
              simpa [pathInO] using hrest

/-- No relative path present under the replica after a pass is absent under
the source, provided no relative path is a file under the source and a
directory under the replica. -/
theorem sync_no_orphans : ∀ (fuel : Nat) (scs : List (String × Node))
    (rep : Option Node),
    wfB fuel (Node.dir scs) = true → wfO fuel rep = true →
    noFileDirB fuel (Node.dir scs) rep = true →
    ∀ p : List String,
      pathInO (synchronize_folders fuel (some (Node.dir scs)) rep).replica p
        = true →
      pathInO (some (Node.dir scs)) p = true := by
  intro fuel
  induction fuel with
  | zero => intro scs rep hwf _ _; simp [wfB] at hwf
  | succ f ih =>
      intro scs rep hwf hwfr hcon p hp
      cases rep with
      | none =>
          rw [sync_dir_mkdir] at hp
          refine sync_no_orphans_core f ih scs [] hwf (by rfl) ?_ p hp
          rw [noFileDirB, List.all_eq_true]
          intro q _
          exact noFileDirB_none f q.2
      | some r =>
          cases r with
          | file b c =>
              rw [sync_rep_file] at hp
              cases p with
              | nil => rfl
              | cons x xs => rw [pathInO, lookupPath] at hp; simp at hp
          | dir rcs =>
              exact sync_no_orphans_core f ih scs rcs hwf hwfr hcon p hp

/-! ### Idempotence: a second pass changes nothing and copies nothing -/

/-- The entry a forward-pass item leaves behind is a fixed point of the
item: running the item again on it changes nothing and performs no copy.
`ih` is the idempotence statement one directory level deeper. -/
theorem item_act_fix (f : Nat)
    (ih : ∀ (src rep : Option Node), wfO f src = true → wfO f rep = true →
        (synchronize_folders f src
            (synchronize_folders f src rep).replica).replica
          = (synchronize_folders f src rep).replica ∧
        (synchronize_folders f src
            (synchronize_folders f src rep).replica).copies = 0)
    (c : Node) (e : Option Node)
    (hwfc : wfB f c = true) (hwfe : wfO f e = true) :
    (item_act (fun a b => synchronize_folders f a b) c
        ((item_act (fun a b => synchronize_folders f a b) c e).entry)).entry
      = (item_act (fun a b => synchronize_folders f a b) c e).entry
    ∧ (item_act (fun a b => synchronize_folders f a b) c
        ((item_act (fun a b => synchronize_folders f a b) c e).entry)).copies
      = 0 := by
  cases c with
  | file r cnt =>
      cases e with
      | none =>
          cases r with
          | true =>
              constructor <;>
                simp [item_act, copy_act, calculate_file_hash_readable]
          | false => constructor <;> simp [item_act, copy_act]
      | some rnode =>
          cases rnode with
          | file rb rc =>
              by_cases hh : calculate_file_hash (some (Node.file r cnt))
                  = calculate_file_hash (some (Node.file rb rc))
              · constructor <;> simp [item_act, hh]
              · cases r with
                | true =>
                    rw [calculate_file_hash_readable] at hh
                    constructor <;>
                      simp [item_act, hh, copy_act, calculate_file_hash_readable]
                | false => constructor <;> simp [item_act, hh, copy_act]
          | dir cs =>
              cases r with
              | true =>
                  have hne : calculate_file_hash (some (Node.file true cnt))
                      ≠ calculate_file_hash (some (Node.dir cs)) := by
                    rw [calculate_file_hash_readable]
                    simp [calculate_file_hash]
                  constructor <;> simp [item_act, hne, copy_act]
              | false =>
                  have heq : calculate_file_hash (some (Node.file false cnt))
                      = calculate_file_hash (some (Node.dir cs)) := rfl
                  constructor <;> simp [item_act, heq]
  | dir ccs =>
      obtain ⟨fb, hfb⟩ : ∃ fb, f = fb + 1 := by
        cases f with
        | zero => simp [wfB] at hwfc
        | succ fb => exact ⟨fb, rfl⟩
      obtain ⟨t, ht⟩ : ∃ t,
          (synchronize_folders f (some (Node.dir ccs)) e).replica = some t := by
        rw [hfb]
        exact sync_replica_isSome fb ccs e
      obtain ⟨hrep, hcp⟩ := ih (some (Node.dir ccs)) e hwfc hwfe
      rw [ht] at hrep hcp
      constructor
      · simp [item_act, ht, hrep]
      · simp [item_act, ht, hrep, hcp]

/-- If every entry at a source name is already a fixed point of its item,
the forward pass leaves the replica child list unchanged and copies
nothing. -/
theorem syncForward_fix (recur : Option Node → Option Node → SyncResult) :
    ∀ (todo : List (String × Node)) (st : FwdState),
    (∀ n c, (n, c) ∈ todo →
        (item_act recur c (lookupName st.children n)).entry
          = lookupName st.children n
        ∧ (item_act recur c (lookupName st.children n)).copies = 0) →
    (syncForward recur todo st).children = st.children
    ∧ (syncForward recur todo st).copies = st.copies := by
  intro todo
  induction todo with
  | nil => intro st _; exact ⟨rfl, rfl⟩
  | cons q rest ih2 =>
      obtain ⟨n, c⟩ := q
      intro st hyp
      have hd := hyp n c (List.mem_cons_self _ _)
      have hch : (syncItem recur n c st).children = st.children := by
        rw [syncItem_char]
        show (match (item_act recur c (lookupName st.children n)).entry with
              | some nd => setEntry st.children n nd
              | none => st.children) = st.children
        rw [hd.1]
        cases hv : lookupName st.children n with
        | some v => simp [setEntry_self hv]
        | none => rfl
      have hcp : (syncItem recur n c st).copies = st.copies := by
        rw [syncItem_copies, hd.2]
        exact Nat.add_zero _
      have hrest := ih2 (syncItem recur n c st) (by
        intro m c2 hm
        rw [hch]
        exact hyp m c2 (List.mem_cons_of_mem _ hm))
      have hfwd : syncForward recur ((n, c) :: rest) st
          = syncForward recur rest (syncItem recur n c st) := rfl
      rw [hfwd, hrest.1, hrest.2, hch, hcp]
      exact ⟨rfl, rfl⟩

/-- The directory/directory case of the idempotence induction. -/
theorem sync_idem_core (f : Nat)
    (ih : ∀ (src rep : Option Node), wfO f src = true → wfO f rep = true →
        (synchronize_folders f src
            (synchronize_folders f src rep).replica).replica
          = (synchronize_folders f src rep).replica ∧
        (synchronize_folders f src
            (synchronize_folders f src rep).replica).copies = 0)
    (scs rcs : List (String × Node))
    (hwf : wfB (f + 1) (Node.dir scs) = true)
    (hwfr : wfB (f + 1) (Node.dir rcs) = true) :
    (synchronize_folders (f + 1) (some (Node.dir scs))
        (synchronize_folders (f + 1) (some (Node.dir scs))
          (some (Node.dir rcs))).replica).replica
      = (synchronize_folders (f + 1) (some (Node.dir scs))
          (some (Node.dir rcs))).replica ∧
    (synchronize_folders (f + 1) (some (Node.dir scs))
        (synchronize_folders (f + 1) (some (Node.dir scs))
          (some (Node.dir rcs))).replica).copies = 0 := by
  obtain ⟨fw1, fw2, fw3, _, _, _⟩ :=
    syncForward_spec (fun a b => synchronize_folders f a b) scs ⟨rcs, 0, 0, 0⟩
      (wfB_dir_distinct hwf)
  have hnames : ∀ q ∈ reverse_pass f scs
      (syncForward (fun a b => synchronize_folders f a b) scs
        ⟨rcs, 0, 0, 0⟩).children, hasName scs q.1 = true := by
    refine mem_reverse_pass_names f scs _ ?_
    intro q hq hfalse
    exact wfB_dir_children hwfr q ((fw3 q hfalse).mp hq)
  have hfix : ∀ n c, (n, c) ∈ scs →
      (item_act (fun a b => synchronize_folders f a b) c
          (lookupName (reverse_pass f scs
            (syncForward (fun a b => synchronize_folders f a b) scs
              ⟨rcs, 0, 0, 0⟩).children) n)).entry
        = lookupName (reverse_pass f scs
            (syncForward (fun a b => synchronize_folders f a b) scs
              ⟨rcs, 0, 0, 0⟩).children) n
      ∧ (item_act (fun a b => synchronize_folders f a b) c
          (lookupName (reverse_pass f scs
            (syncForward (fun a b => synchronize_folders f a b) scs
              ⟨rcs, 0, 0, 0⟩).children) n)).copies = 0 := by
    intro n c hmem
    have hlk : lookupName (reverse_pass f scs
        (syncForward (fun a b => synchronize_folders f a b) scs
          ⟨rcs, 0, 0, 0⟩).children) n
        = (item_act (fun a b => synchronize_folders f a b) c
            (lookupName rcs n)).entry := by
      rw [reverse_pass_lookup_kept f scs _ n (hasName_of_mem hmem)]
      exact fw1 n c hmem
    rw [hlk]
    exact item_act_fix f ih c (lookupName rcs n)
      (wfB_dir_children hwf (n, c) hmem) (wfO_lookup hwfr n)
  obtain ⟨hch2, hcp2⟩ :=
    syncForward_fix (fun a b => synchronize_folders f a b) scs
      ⟨reverse_pass f scs
        (syncForward (fun a b => synchronize_folders f a b) scs
          ⟨rcs, 0, 0, 0⟩).children, 0, 0, 0⟩ hfix
  rw [sync_dir_dir, sync_dir_dir]
  constructor
  · show some (Node.dir (reverse_pass f scs
        (syncForward (fun a b => synchronize_folders f a b) scs
          ⟨reverse_pass f scs
            (syncForward (fun a b => synchronize_folders f a b) scs
              ⟨rcs, 0, 0, 0⟩).children, 0, 0, 0⟩).children))
      = some (Node.dir (reverse_pass f scs
          (syncForward (fun a b => synchronize_folders f a b) scs
            ⟨rcs, 0, 0, 0⟩).children))
    rw [hch2]
    rw [reverse_pass_id f scs _ hnames]
  · show (syncForward (fun a b => synchronize_folders f a b) scs
        ⟨reverse_pass f scs
          (syncForward (fun a b => synchronize_folders f a b) scs
            ⟨rcs, 0, 0, 0⟩).children, 0, 0, 0⟩).copies = 0
    rw [hcp2]

/-- Idempotence: rerunning a pass on its own output replica leaves the
replica unchanged and performs zero file copies. -/
theorem sync_idem : ∀ (fuel : Nat) (src rep : Option Node),
    wfO fuel src = true → wfO fuel rep = true →
    (synchronize_folders fuel src
        (synchronize_folders fuel src rep).replica).replica
      = (synchronize_folders fuel src rep).replica ∧
    (synchronize_folders fuel src
        (synchronize_folders fuel src rep).replica).copies = 0 := by
  intro fuel
  induction fuel with
  | zero => intro src rep _ _; exact ⟨rfl, rfl⟩
  | succ f ih =>
      intro src rep hwfs hwfr
      cases src with
      | none => exact ⟨rfl, rfl⟩
      | some s =>
          cases s with
          | file b c =>
              cases rep with
              | none => exact ⟨rfl, rfl⟩
              | some r => exact ⟨rfl, rfl⟩
          | dir scs =>
              cases rep with
              | none =>
                  rw [sync_dir_mkdir]
                  exact sync_idem_core f ih scs [] hwfs (by rfl)
              | some r =>
                  cases r with
                  | file b c => exact ⟨rfl, rfl⟩
                  | dir rcs => exact sync_idem_core f ih scs rcs hwfs hwfr

/-! ### Per-item facts for partial failure isolation -/

theorem item_act_entry_good (recur : Option Node → Option Node → SyncResult)
    (c : List Nat) (e : Option Node)
    (he : e = none ∨ ∃ c2, e = some (Node.file true c2)) :
    (item_act recur (Node.file true c) e).entry = some (Node.file true c)
    ∧ (item_act recur (Node.file true c) e).errors = 0 := by
  rcases he with he | ⟨c2, he⟩ <;> subst he
  · constructor <;> simp [item_act, copy_act]
  · by_cases hh : calculate_file_hash (some (Node.file true c))
        = calculate_file_hash (some (Node.file true c2))
    · have hcc : c = c2 := by
        rw [calculate_file_hash_readable, calculate_file_hash_readable] at hh
        simpa using hh
      subst hcc
      constructor <;> simp [item_act, hh]
    · constructor <;> simp [item_act, hh, copy_act]

theorem item_act_errors_bad (recur : Option Node → Option Node → SyncResult)
    (bc : List Nat) (e : Option Node)
    (he : e = none ∨ ∃ c2, e = some (Node.file true c2)) :
    (item_act recur (Node.file false bc) e).errors = 1 := by
  rcases he with he | ⟨c2, he⟩ <;> subst he
  · simp [item_act, copy_act]
  · have hne : calculate_file_hash (some (Node.file false bc))
        ≠ calculate_file_hash (some (Node.file true c2)) := by
      rw [calculate_file_hash_readable]
      simp [calculate_file_hash]
    simp [item_act, hne, copy_act]

theorem rep_entry_shape {rcs : List (String × Node)} {n : String}
    (h : (match lookupName rcs n with
          | none => true
          | some (Node.file true _) => true
          | _ => false) = true) :
    lookupName rcs n = none ∨ ∃ c2, lookupName rcs n = some (Node.file true c2) := by
  cases hl : lookupName rcs n with
  | none => exact Or.inl rfl
  | some v =>
      cases v with
      | file rb rc =>
          cases rb with
          | true => exact Or.inr ⟨rc, rfl⟩
          | false => rw [hl] at h; simp at h
      | dir cs => rw [hl] at h; simp at h

/-! ### The scheduler loop stops after a failed pass -/

theorem start_sync_loop_le {α : Type} (step : α → α × Bool) :
    ∀ (ticks j : Nat) (w : α),
    (step (world_after step j w)).2 = false →
    start_sync_loop step ticks w ≤ j + 1 := by
  intro ticks
  induction ticks with
  | zero => intro j w _; exact Nat.zero_le _
  | succ t ih =>
      intro j w hj
      have hunf : start_sync_loop step (t + 1) w
          = (if (step w).2 = false then 1
             else 1 + start_sync_loop step t (step w).1) := rfl
      rw [hunf]
      cases hs : (step w).2 with
      | false => simp
      | true =>
          cases j with
          | zero =>
              rw [world_after] at hj
              rw [hj] at hs
              cases hs
          | succ j2 =>
              have hj2 : (step (world_after step j2 (step w).1)).2 = false := by
                rw [world_after] at hj
                exact hj
              have hle := ih j2 (step w).1 hj2
              simp only [show (true = false) = False by simp, if_false]
              omega

theorem sib_shape {p : String × Node}
    (h : (match p.2 with | Node.file true _ => true | _ => false) = true) :
    ∃ c, p.2 = Node.file true c := by
  cases hv : p.2 with
  | file rb rc =>
      cases rb with
      | true => exact ⟨rc, rfl⟩
      | false => rw [hv] at h; simp at h
  | dir cs => rw [hv] at h; simp at h

/-! ## The claims -/

/-- Claim C1, counterexample: the convergence claim is false as stated.
With source `{a/: directory, b: unreadable file}` and replica
`{a: file}`, the pass returns `True` (the recursive call's failure on the
`a` type conflict is discarded, the copy failure on `b` is caught), yet the
replica still has a file where the source has a directory and lacks `b`
entirely, so it does not mirror the source. -/
theorem sync_convergence_cex :
    (synchronize_folders 3
      (some (Node.dir [("a", Node.dir []), ("b", Node.file false [1])]))
      (some (Node.dir [("a", Node.file true [2])]))).ok = true
    ∧ mirrorsO 3 (Node.dir [("a", Node.dir []), ("b", Node.file false [1])])
        (synchronize_folders 3
          (some (Node.dir [("a", Node.dir []), ("b", Node.file false [1])]))
          (some (Node.dir [("a", Node.file true [2])]))).replica = false :=
  ⟨rfl, rfl⟩

/-- Claim C1 (amended): convergence holds provided every file under the
source is readable and no relative path is a directory on one side and a
file on the other: then a pass over a well-formed source directory tree and
any well-formed starting replica returns `True`, and the replica is
structurally and byte-content identical to the source — every source path
exists under the replica with the same type and bytes, and no extra path
remains. -/
theorem sync_convergence_amended (fuel : Nat) (scs : List (String × Node))
    (rep : Option Node)
    (hwf : wfB fuel (Node.dir scs) = true)
    (hgood : goodB fuel (Node.dir scs) = true)
    (hwfr : wfO fuel rep = true)
    (hcon : noConB fuel (Node.dir scs) rep = true) :
    (synchronize_folders fuel (some (Node.dir scs)) rep).ok = true ∧
    mirrorsO fuel (Node.dir scs)
      (synchronize_folders fuel (some (Node.dir scs)) rep).replica = true :=
  sync_good_mirrors fuel scs rep hwf hgood hwfr hcon

/-- Witness for C1 (amended) at a concrete two-level source and a replica
holding a stale entry. -/
theorem sync_convergence_amended_witness :
    (wfB 3 (Node.dir [("a", Node.file true [1]),
        ("d", Node.dir [("b", Node.file true [2])])]) = true
     ∧ goodB 3 (Node.dir [("a", Node.file true [1]),
        ("d", Node.dir [("b", Node.file true [2])])]) = true
     ∧ wfO 3 (some (Node.dir [("c", Node.file true [9])])) = true
     ∧ noConB 3 (Node.dir [("a", Node.file true [1]),
        ("d", Node.dir [("b", Node.file true [2])])])
        (some (Node.dir [("c", Node.file true [9])])) = true)
    ∧ ((synchronize_folders 3
        (some (Node.dir [("a", Node.file true [1]),
          ("d", Node.dir [("b", Node.file true [2])])]))
        (some (Node.dir [("c", Node.file true [9])]))).ok = true
       ∧ mirrorsO 3 (Node.dir [("a", Node.file true [1]),
          ("d", Node.dir [("b", Node.file true [2])])])
          (synchronize_folders 3
            (some (Node.dir [("a", Node.file true [1]),
              ("d", Node.dir [("b", Node.file true [2])])]))
            (some (Node.dir [("c", Node.file true [9])]))).replica = true) :=
  ⟨⟨rfl, rfl, rfl, rfl⟩,
   sync_convergence_amended 3
     [("a", Node.file true [1]), ("d", Node.dir [("b", Node.file true [2])])]
     (some (Node.dir [("c", Node.file true [9])])) rfl rfl rfl rfl⟩

/-- Claim C2 (code bug): `read_commands` accepts `5M` (the regex admits
uppercase units and the usage text calls the unit case-insensitive), and
line 99 of `start_sync` resolves `M` via `.lower()`, but the `logger.info`
f-string on line 101 indexes the unit-name table WITHOUT `.lower()`, so an
uppercase unit raises `KeyError` and `start_sync` crashes before the first
pass; a lowercase `m` resolves to 60 seconds as the claim describes. -/
theorem interval_uppercase_keyerror :
    interval_format_ok "5M" = true
    ∧ start_sync_interval 'M' = none
    ∧ interval_format_ok "5m" = true
    ∧ start_sync_interval 'm' = some 60 :=
  ⟨rfl, rfl, rfl, rfl⟩

/-- Claim C3: `calculate_file_hash` returns the digest of the full byte
content for a readable file (the chunked read feeds every byte to the
digest), and returns the error result `none` — without crashing, the
function is total — whenever `open`/`read` raises: the file is unreadable,
the path is a directory, or the path does not exist. -/
theorem calculate_file_hash_contract :
    (∀ c : List Nat, calculate_file_hash (some (Node.file true c)) = some c)
    ∧ (∀ c : List Nat, calculate_file_hash (some (Node.file false c)) = none)
    ∧ (∀ cs : List (String × Node), calculate_file_hash (some (Node.dir cs)) = none)
    ∧ calculate_file_hash none = none :=
  ⟨calculate_file_hash_readable, fun _ => rfl, fun _ => rfl, rfl⟩

/-- Claim C4: in a directory of sibling files of which exactly one is
unreadable (and the replica holds nothing worse than readable files at
those names), the one I/O error is caught and logged as a single
`Failed to synchronize` record, every other sibling ends up reconciled
with the source bytes, and the pass still returns `True`. -/
theorem partial_failure_isolation (fuel : Nat) (pre post : List (String × Node))
    (bname : String) (bcnt : List Nat) (rcs : List (String × Node))
    (hdist : distinctNames (namesOf
        (pre ++ (bname, Node.file false bcnt) :: post)) = true)
    (hsib : (pre ++ post).all (fun p => match p.2 with
        | Node.file true _ => true
        | _ => false) = true)
    (hrep : (pre ++ (bname, Node.file false bcnt) :: post).all (fun p =>
        match lookupName rcs p.1 with
        | none => true
        | some (Node.file true _) => true
        | _ => false) = true) :
    (synchronize_folders (fuel + 1)
        (some (Node.dir (pre ++ (bname, Node.file false bcnt) :: post)))
        (some (Node.dir rcs))).ok = true
    ∧ (synchronize_folders (fuel + 1)
        (some (Node.dir (pre ++ (bname, Node.file false bcnt) :: post)))
        (some (Node.dir rcs))).errors = 1
    ∧ ∀ n c, (n, Node.file true c) ∈ pre ++ post →
        lookupPathO (synchronize_folders (fuel + 1)
          (some (Node.dir (pre ++ (bname, Node.file false bcnt) :: post)))
          (some (Node.dir rcs))).replica [n] = some (Node.file true c) := by
  rw [List.all_eq_true] at hsib hrep
  obtain ⟨fw1, fw2, fw3, fw4, fw5, fw6⟩ :=
    syncForward_spec (fun a b => synchronize_folders fuel a b)
      (pre ++ (bname, Node.file false bcnt) :: post) ⟨rcs, 0, 0, 0⟩ hdist
  refine ⟨rfl, ?_, ?_⟩
  · rw [sync_dir_dir]
    show (syncForward (fun a b => synchronize_folders fuel a b)
        (pre ++ (bname, Node.file false bcnt) :: post) ⟨rcs, 0, 0, 0⟩).errors = 1
    rw [fw6]
    have hpre0 : (List.map (fun p : String × Node =>
        (item_act (fun a b => synchronize_folders fuel a b) p.2
          (lookupName rcs p.1)).errors) pre).sum = 0 := by
      refine List.sum_eq_zero ?_
      intro x hx
      obtain ⟨p, hp, hpx⟩ := List.mem_map.mp hx
      obtain ⟨cg, hcg⟩ := sib_shape (hsib p (List.mem_append_left post hp))
      rw [← hpx, hcg]
      exact (item_act_entry_good _ cg (lookupName rcs p.1)
        (rep_entry_shape (hrep p
          (List.mem_append_left ((bname, Node.file false bcnt) :: post) hp)))).2
    have hpost0 : (List.map (fun p : String × Node =>
        (item_act (fun a b => synchronize_folders fuel a b) p.2
          (lookupName rcs p.1)).errors) post).sum = 0 := by
      refine List.sum_eq_zero ?_
      intro x hx
      obtain ⟨p, hp, hpx⟩ := List.mem_map.mp hx
      obtain ⟨cg, hcg⟩ := sib_shape (hsib p (List.mem_append_right pre hp))
      rw [← hpx, hcg]
      exact (item_act_entry_good _ cg (lookupName rcs p.1)
        (rep_entry_shape (hrep p
          (List.mem_append_right pre (List.mem_cons_of_mem _ hp))))).2
    have hbad : (item_act (fun a b => synchronize_folders fuel a b)
        (Node.file false bcnt) (lookupName rcs bname)).errors = 1 :=
      item_act_errors_bad _ bcnt (lookupName rcs bname)
        (rep_entry_shape (hrep (bname, Node.file false bcnt)
          (List.mem_append_right pre (List.mem_cons_self _ _))))
    simp only [List.map_append, List.map_cons, List.sum_append, List.sum_cons]
    rw [hpre0, hpost0, hbad]
    rfl
  · intro n c hmem
    have hscs : (n, Node.file true c)
        ∈ pre ++ (bname, Node.file false bcnt) :: post := by
      rcases List.mem_append.mp hmem with h | h
      · exact List.mem_append_left _ h
      · exact List.mem_append_right _ (List.mem_cons_of_mem _ h)
    have hentry := (item_act_entry_good
        (fun a b => synchronize_folders fuel a b) c (lookupName rcs n)
        (rep_entry_shape (hrep (n, Node.file true c) hscs))).1
    have hlk : lookupName (reverse_pass fuel
        (pre ++ (bname, Node.file false bcnt) :: post)
        (syncForward (fun a b => synchronize_folders fuel a b)
          (pre ++ (bname, Node.file false bcnt) :: post)
          ⟨rcs, 0, 0, 0⟩).children) n = some (Node.file true c) := by
      rw [reverse_pass_lookup_kept _ _ _ n (hasName_of_mem hscs),
        fw1 n (Node.file true c) hscs]
      exact hentry
    rw [sync_dir_dir]
    simp [lookupPathO, lookupPath, hlk]

/-- Witness for C4: three siblings of which `b` is unreadable; the replica
starts with a stale copy of `a`. -/
theorem partial_failure_isolation_witness :
    (distinctNames (namesOf ([("a", Node.file true [1])]
        ++ ("b", Node.file false [9]) :: [("c", Node.file true [2])])) = true
     ∧ ([("a", Node.file true [1])] ++ [("c", Node.file true [2])]).all
        (fun p => match p.2 with
          | Node.file true _ => true
          | _ => false) = true
     ∧ ([("a", Node.file true [1])]
        ++ ("b", Node.file false [9]) :: [("c", Node.file true [2])]).all
        (fun p => match lookupName [("a", Node.file true [5])] p.1 with
          | none => true
          | some (Node.file true _) => true
          | _ => false) = true)
    ∧ ((synchronize_folders 2
        (some (Node.dir ([("a", Node.file true [1])]
          ++ ("b", Node.file false [9]) :: [("c", Node.file true [2])])))
        (some (Node.dir [("a", Node.file true [5])]))).ok = true
       ∧ (synchronize_folders 2
          (some (Node.dir ([("a", Node.file true [1])]
            ++ ("b", Node.file false [9]) :: [("c", Node.file true [2])])))
          (some (Node.dir [("a", Node.file true [5])]))).errors = 1
       ∧ lookupPathO (synchronize_folders 2
          (some (Node.dir ([("a", Node.file true [1])]
            ++ ("b", Node.file false [9]) :: [("c", Node.file true [2])])))
          (some (Node.dir [("a", Node.file true [5])]))).replica ["a"]
          = some (Node.file true [1])) :=
  ⟨⟨rfl, rfl, rfl⟩,
   (partial_failure_isolation 1 [("a", Node.file true [1])]
      [("c", Node.file true [2])] "b" [9] [("a", Node.file true [5])]
      rfl rfl rfl).1,
   (partial_failure_isolation 1 [("a", Node.file true [1])]
      [("c", Node.file true [2])] "b" [9] [("a", Node.file true [5])]
      rfl rfl rfl).2.1,
   (partial_failure_isolation 1 [("a", Node.file true [1])]
      [("c", Node.file true [2])] "b" [9] [("a", Node.file true [5])]
      rfl rfl rfl).2.2 "a" [1] (List.mem_cons_self _ _)⟩

/-- Claim C5, counterexample: the deletion claim is false as stated.  With
source `{a: file}` and replica `{a/: directory containing x}`, the relative
path `a/x` is present in the replica and absent in the source before the
pass, the pass returns `True` (the copy onto the directory fails and is
caught, and the reverse pass keeps `a` because the name exists in the
source), and `a/x` is still present afterwards. -/
theorem deletion_correctness_cex :
    pathInO (some (Node.dir [("a", Node.dir [("x", Node.file true [2])])]))
      ["a", "x"] = true
    ∧ pathInO (some (Node.dir [("a", Node.file true [1])])) ["a", "x"] = false
    ∧ (synchronize_folders 3 (some (Node.dir [("a", Node.file true [1])]))
        (some (Node.dir [("a", Node.dir [("x", Node.file true [2])])]))).ok
        = true
    ∧ pathInO (synchronize_folders 3
        (some (Node.dir [("a", Node.file true [1])]))
        (some (Node.dir [("a", Node.dir [("x", Node.file true [2])])]))).replica
        ["a", "x"] = true :=
  ⟨rfl, rfl, rfl, rfl⟩

/-- Claim C5 (amended): provided no relative path is a file under the
source and a directory under the replica, every relative path present
under the replica after a pass is present under the source, so every
pre-existing orphan — including nested directories, which `delete_item`
removes bottom-up, children first — is gone. -/
theorem deletion_correctness_amended (fuel : Nat) (scs : List (String × Node))
    (rep : Option Node)
    (hwf : wfB fuel (Node.dir scs) = true)
    (hwfr : wfO fuel rep = true)
    (hcon : noFileDirB fuel (Node.dir scs) rep = true)
    (p : List String)
    (hp : pathInO (synchronize_folders fuel (some (Node.dir scs)) rep).replica p
        = true) :
    pathInO (some (Node.dir scs)) p = true :=
  sync_no_orphans fuel scs rep hwf hwfr hcon p hp

/-- Witness for C5 (amended): a nested orphan directory `junk/x` is removed
and the surviving path `a` indeed exists under the source. -/
theorem deletion_correctness_amended_witness :
    (wfB 3 (Node.dir [("a", Node.file true [1])]) = true
     ∧ wfO 3 (some (Node.dir [("junk", Node.dir [("x", Node.file true [2])])]))
        = true
     ∧ noFileDirB 3 (Node.dir [("a", Node.file true [1])])
        (some (Node.dir [("junk", Node.dir [("x", Node.file true [2])])]))
        = true
     ∧ pathInO (synchronize_folders 3
        (some (Node.dir [("a", Node.file true [1])]))
        (some (Node.dir [("junk", Node.dir [("x", Node.file true [2])])]))).replica
        ["a"] = true)
    ∧ pathInO (some (Node.dir [("a", Node.file true [1])])) ["a"] = true :=
  ⟨⟨rfl, rfl, rfl, rfl⟩,
   deletion_correctness_amended 3 [("a", Node.file true [1])]
     (some (Node.dir [("junk", Node.dir [("x", Node.file true [2])])]))
     rfl rfl rfl ["a"] rfl⟩

/-- Claim C6: idempotence.  Rerunning a pass on the replica produced by the
previous pass over the same source leaves the replica identical and
performs zero file copies (every file is settled by the hash-equality
short-circuit or by error paths that write nothing). -/
theorem sync_idempotence (fuel : Nat) (src rep : Option Node)
    (hwfs : wfO fuel src = true) (hwfr : wfO fuel rep = true) :
    (synchronize_folders fuel src
        (synchronize_folders fuel src rep).replica).replica
      = (synchronize_folders fuel src rep).replica ∧
    (synchronize_folders fuel src
        (synchronize_folders fuel src rep).replica).copies = 0 :=
  sync_idem fuel src rep hwfs hwfr

/-- Witness for C6 on a source with one file and a replica with one stale
entry. -/
theorem sync_idempotence_witness :
    (wfO 2 (some (Node.dir [("a", Node.file true [1])])) = true
     ∧ wfO 2 (some (Node.dir [("b", Node.file true [2])])) = true)
    ∧ ((synchronize_folders 2 (some (Node.dir [("a", Node.file true [1])]))
        (synchronize_folders 2 (some (Node.dir [("a", Node.file true [1])]))
          (some (Node.dir [("b", Node.file true [2])]))).replica).replica
      = (synchronize_folders 2 (some (Node.dir [("a", Node.file true [1])]))
          (some (Node.dir [("b", Node.file true [2])]))).replica
      ∧ (synchronize_folders 2 (some (Node.dir [("a", Node.file true [1])]))
        (synchronize_folders 2 (some (Node.dir [("a", Node.file true [1])]))
          (some (Node.dir [("b", Node.file true [2])]))).replica).copies = 0) :=
  ⟨⟨rfl, rfl⟩,
   sync_idempotence 2 (some (Node.dir [("a", Node.file true [1])]))
     (some (Node.dir [("b", Node.file true [2])])) rfl rfl⟩

/-- Claim C7: once a pass returns `False` (at tick `j`), the `start_sync`
loop breaks, so no matter how many ticks the scheduler could run, at most
`j + 1` calls to `synchronize_folders` are ever issued — none after the
failing one. -/
theorem scheduler_stops_after_failure (fuel ticks j : Nat)
    (w : Option Node × Option Node)
    (hj : (sync_step fuel (world_after (sync_step fuel) j w)).2 = false) :
    start_sync_loop (sync_step fuel) ticks w ≤ j + 1 :=
  start_sync_loop_le (sync_step fuel) ticks j w hj

/-- Witness for C7: with a missing source, the very first pass fails and at
most one call is made in five available ticks. -/
theorem scheduler_stops_after_failure_witness :
    (sync_step 1 (world_after (sync_step 1) 0 ((none : Option Node),
      (none : Option Node)))).2 = false
    ∧ start_sync_loop (sync_step 1) 5 ((none : Option Node),
      (none : Option Node)) ≤ 0 + 1 :=
  ⟨rfl, scheduler_stops_after_failure 1 5 0 (none, none) rfl⟩

/-- Claim C8: when the same-named file is unreadable on both sides, both
hash calls return the error result `None`, `None == None` counts as a hash
match, so the reconciler logs the pair as matching (one skip record),
copies nothing, reports no failed item, leaves the replica untouched and
returns `True`. -/
theorem unreadable_pair_hash_match_skip (fuel : Nat) (n : String)
    (c1 c2 : List Nat) :
    synchronize_folders (fuel + 1)
      (some (Node.dir [(n, Node.file false c1)]))
      (some (Node.dir [(n, Node.file false c2)]))
      = ⟨some (Node.dir [(n, Node.file false c2)]), true, 0, 1, 0⟩ := by
  rw [sync_dir_dir]
  simp [syncForward, syncItem, lookupName, calculate_file_hash, reverse_pass,
    hasName]

/-- Claim C9: when the source exists but is a file and the replica path
does not exist, `os.mkdir` creates the replica directory (line 149) before
the `isdir` check on the source fails (line 155), so the call returns
`False` having already changed the filesystem: an empty replica directory
now exists. -/
theorem replica_created_before_source_dir_check (fuel : Nat) (b : Bool)
    (c : List Nat) :
    synchronize_folders (fuel + 1) (some (Node.file b c)) none
      = ⟨some (Node.dir []), false, 0, 0, 0⟩ := rfl

/-- Claim C10: the boolean result of `synchronize_folders` is exactly the
conjunction of the four root-level checks — source exists, source is a
directory, replica exists or is created, replica is a directory — and is
`True` regardless of any failures in recursive sub-calls (whose results
are discarded) or per-item operations (whose errors are caught). -/
theorem ok_depends_only_on_root_checks (fuel : Nat) (src rep : Option Node) :
    (synchronize_folders (fuel + 1) src rep).ok = root_checks_spec src rep := by
  cases src with
  | none => rfl
  | some s =>
      cases s with
      | file b c =>
          cases rep with
          | none => rfl
          | some r => rfl
      | dir scs =>
          cases rep with
          | none => rfl
          | some r =>
              cases r with
              | file b c => rfl
              | dir rcs => rfl

end FolderSync
